import Mathlib

/-!
Verification of the post-resolution authorization middleware of
`graphene_django_permissions` (file `middleware.py`), as a shallow embedding.

The middleware inspects each resolved field value and dispatches on its shape:
a single Django model instance, a `QuerySet`, a plain `list`/`tuple`/`set`,
or anything else.  Permission lookups go through the opaque Django
`user.has_perm` oracle, with and without an `obj=` argument; we model the two
as pure boolean-valued functions carried by a `User` record.
-/

namespace GraphenePerms

/-- Django model identity metadata: `model._meta.app_label` and
`model._meta.model_name`. -/
structure ModelMeta where
  app_label : String
  model_name : String
deriving DecidableEq, Repr

/-- A model instance: its model metadata (`object._meta.model`) and an opaque
primary key distinguishing instances. -/
structure Entity where
  kind : ModelMeta
  pk : Nat
deriving DecidableEq, Repr

/-- `get_permission_for_model`: builds `f"{app_label}.{action}_{model_name}"`. -/
def get_permission_for_model (model : ModelMeta) (action : String) : String :=
  model.app_label ++ "." ++ action ++ "_" ++ model.model_name

/-- `get_view_permission_for_model`: the `"view"` action. -/
def get_view_permission_for_model (model : ModelMeta) : String :=
  get_permission_for_model model "view"

/-- The requesting user together with its permission oracle:
`has_perm_model p` models `user.has_perm(p)` and `has_perm_obj p o` models
`user.has_perm(p, obj=o)`.  Both are opaque, read-only backend lookups. -/
structure User where
  has_perm_model : String → Bool
  has_perm_obj : String → Entity → Bool

/-- `has_permission_to_view_model_object(user, object)`: model-level view
permission for the object's model, or the instance-scoped permission on the
object itself. -/
def has_permission_to_view_model_object (user : User) (object : Entity) : Bool :=
  let permission := get_view_permission_for_model object.kind
  user.has_perm_model permission || user.has_perm_obj permission object

/-- The shapes a resolved field value can take, mirroring the `isinstance`
dispatch in `GrapheneAuthorizationMiddleware.resolve`: a model instance, a
`QuerySet` (its model plus the already-scheduled iteration's elements), the
plain Python containers `list`/`tuple`/`set`, and the untouched shapes
(`None`, `str`, `int`, `dict`, arbitrary iterators/generators). -/
inductive Value where
  | model (e : Entity)
  | queryset (model : ModelMeta) (objs : List Entity)
  | pylist (objs : List Value)
  | pytuple (objs : List Value)
  | pyset (objs : List Value)
  | pynone
  | pystr (s : String)
  | pyint (n : Int)
  | pydict (entries : List (String × Value))
  | iterator (objs : List Value)

/-- The member test of the `list`/`tuple`/`set` branch:
`not isinstance(obj, models.Model) or has_permission_to_view_model_object(user, obj)`. -/
def keeps (user : User) (obj : Value) : Bool :=
  match obj with
  | .model e => has_permission_to_view_model_object user e
  | _ => true

/-- The middleware's outcome for one field: a value handed back to the engine,
or the raised `PermissionDenied` error. -/
inductive Outcome where
  | ok (v : Value)
  | permissionDenied

namespace GrapheneAuthorizationMiddleware

/-- `GrapheneAuthorizationMiddleware.resolve`, after `next` has produced
`value`; `nonNull` is `isinstance(info.return_type, graphql.GraphQLNonNull)`. -/
def resolve (user : User) (nonNull : Bool) (value : Value) : Outcome :=
  match value with
  | .model e =>
      if !(has_permission_to_view_model_object user e) then
        if nonNull then .permissionDenied
        else .ok .pynone
      else .ok value
  | .queryset model objs =>
      let permission := get_view_permission_for_model model
      if !(user.has_perm_model permission) then
        .ok (.pylist ((objs.filter fun obj => user.has_perm_obj permission obj).map Value.model))
      else .ok value
  | .pylist objs => .ok (.pylist (objs.filter (keeps user)))
  | .pytuple objs => .ok (.pylist (objs.filter (keeps user)))
  | .pyset objs => .ok (.pylist (objs.filter (keeps user)))
  | _ => .ok value

/-- Iterating the queryset's already-scheduled result while filtering, one
pull per element: returns the kept elements in order together with the number
of elements pulled from the underlying source. -/
def filterPull (p : Entity → Bool) : List Entity → List Entity × Nat
  | [] => ([], 0)
  | obj :: rest =>
      let (kept, pulls) := filterPull p rest
      (if p obj then obj :: kept else kept, pulls + 1)

/-- Oracle lookups issued by one `has_permission_to_view_model_object` call:
the `or` short-circuits, so one lookup when the model-level check grants,
two otherwise. -/
def viewObjectCalls (user : User) (object : Entity) : Nat :=
  if user.has_perm_model (get_view_permission_for_model object.kind) then 1 else 2

/-- Oracle lookups issued for one member of the `list`/`tuple`/`set` branch:
non-model members are never looked up. -/
def memberCalls (user : User) (obj : Value) : Nat :=
  match obj with
  | .model e => viewObjectCalls user e
  | _ => 0

/-- `resolve`, instrumented for its effects: besides the outcome it returns
the user/permission state it hands back (the code only ever reads through
`has_perm`), the number of permission-oracle lookups it issued, and the
number of elements it pulled from a queryset's underlying source. -/
def resolveInstr (user : User) (nonNull : Bool) (value : Value) :
    Outcome × User × Nat × Nat :=
  match value with
  | .model e =>
      if !(has_permission_to_view_model_object user e) then
        if nonNull then (.permissionDenied, user, viewObjectCalls user e, 0)
        else (.ok .pynone, user, viewObjectCalls user e, 0)
      else (.ok value, user, viewObjectCalls user e, 0)
  | .queryset model objs =>
      let permission := get_view_permission_for_model model
      if !(user.has_perm_model permission) then
        let (kept, pulls) := filterPull (fun obj => user.has_perm_obj permission obj) objs
        (.ok (.pylist (kept.map Value.model)), user, 1 + pulls, pulls)
      else (.ok value, user, 1, 0)
  | .pylist objs =>
      (.ok (.pylist (objs.filter (keeps user))), user, (objs.map (memberCalls user)).sum, 0)
  | .pytuple objs =>
      (.ok (.pylist (objs.filter (keeps user))), user, (objs.map (memberCalls user)).sum, 0)
  | .pyset objs =>
      (.ok (.pylist (objs.filter (keeps user))), user, (objs.map (memberCalls user)).sum, 0)
  | _ => (.ok value, user, 0, 0)

end GrapheneAuthorizationMiddleware

export GrapheneAuthorizationMiddleware (resolve resolveInstr)

/-- `filterPull` is the single pass it claims to be: it keeps exactly
`List.filter` of the source, and pulls each source element exactly once. -/
theorem filterPull_spec (p : Entity → Bool) (l : List Entity) :
    GrapheneAuthorizationMiddleware.filterPull p l = (l.filter p, l.length) := by
  induction l with
  | nil => rfl
  | cons obj rest ih =>
      simp only [GrapheneAuthorizationMiddleware.filterPull, ih, List.filter_cons,
        List.length_cons]

/-- The instrumented middleware computes the same outcome as `resolve`. -/
theorem resolveInstr_outcome (user : User) (nonNull : Bool) (value : Value) :
    (resolveInstr user nonNull value).1 = resolve user nonNull value := by
  cases value with
  | model e =>
      by_cases h : has_permission_to_view_model_object user e <;> cases nonNull <;>
        simp [GrapheneAuthorizationMiddleware.resolveInstr,
          GrapheneAuthorizationMiddleware.resolve, h]
  | queryset model objs =>
      by_cases h : user.has_perm_model (get_view_permission_for_model model) <;>
        simp [GrapheneAuthorizationMiddleware.resolveInstr,
          GrapheneAuthorizationMiddleware.resolve, filterPull_spec, h]
  | pylist objs => rfl
  | pytuple objs => rfl
  | pyset objs => rfl
  | pynone => rfl
  | pystr s => rfl
  | pyint n => rfl
  | pydict entries => rfl
  | iterator objs => rfl

/-- C1: a resolved single entity passes through unchanged exactly when the
user has the model-level view permission for its model or the instance-scoped
view permission on that entity; in both checks the permission key is the one
derived from the entity's model with action `"view"`. -/
theorem single_entity_pass_through_iff_grant (user : User) (nonNull : Bool) (e : Entity) :
    resolve user nonNull (.model e) = .ok (.model e) ↔
      (user.has_perm_model (get_permission_for_model e.kind "view") = true ∨
       user.has_perm_obj (get_permission_for_model e.kind "view") e = true) := by
  simp only [GrapheneAuthorizationMiddleware.resolve, has_permission_to_view_model_object,
    get_view_permission_for_model]
  by_cases h1 : user.has_perm_model (get_permission_for_model e.kind "view") <;>
    by_cases h2 : user.has_perm_obj (get_permission_for_model e.kind "view") e <;>
    cases nonNull <;> simp [h1, h2]

/-- C2: the middleware raises `PermissionDenied` exactly when the resolved
value is a single, denied entity sitting under a non-null field type; a
denied entity under a nullable field becomes `None` with no error; no other
shape (collections included) ever raises. -/
theorem permission_denied_iff_nonnull_denied_entity (user : User) (nonNull : Bool)
    (value : Value) :
    (resolve user nonNull value = .permissionDenied ↔
      (nonNull = true ∧ ∃ e, value = .model e ∧
        has_permission_to_view_model_object user e = false))
    ∧ (∀ e, value = .model e → has_permission_to_view_model_object user e = false →
        nonNull = false → resolve user nonNull value = .ok .pynone) := by
  refine ⟨?_, ?_⟩
  · cases value with
    | model e =>
        by_cases h : has_permission_to_view_model_object user e <;> cases nonNull <;>
          simp [GrapheneAuthorizationMiddleware.resolve, h]
    | queryset model objs =>
        by_cases h : user.has_perm_model (get_view_permission_for_model model) <;>
          simp [GrapheneAuthorizationMiddleware.resolve, h]
    | pylist objs => simp [GrapheneAuthorizationMiddleware.resolve]
    | pytuple objs => simp [GrapheneAuthorizationMiddleware.resolve]
    | pyset objs => simp [GrapheneAuthorizationMiddleware.resolve]
    | pynone => simp [GrapheneAuthorizationMiddleware.resolve]
    | pystr s => simp [GrapheneAuthorizationMiddleware.resolve]
    | pyint n => simp [GrapheneAuthorizationMiddleware.resolve]
    | pydict entries => simp [GrapheneAuthorizationMiddleware.resolve]
    | iterator objs => simp [GrapheneAuthorizationMiddleware.resolve]
  · intro e hv hdeny hnn
    subst hv
    subst hnn
    simp [GrapheneAuthorizationMiddleware.resolve, hdeny]

/-- C3: for a queryset, the model-level view permission passes the whole
collection through unchanged; without it the outcome is the list of exactly
the members granted by the instance-scoped check, in their original order,
and this branch never raises regardless of the field's nullability. -/
theorem queryset_policy (user : User) (nonNull : Bool) (K : ModelMeta)
    (objs : List Entity) :
    (user.has_perm_model (get_view_permission_for_model K) = true →
        resolve user nonNull (.queryset K objs) = .ok (.queryset K objs))
    ∧ (user.has_perm_model (get_view_permission_for_model K) = false →
        resolve user nonNull (.queryset K objs) =
          .ok (.pylist ((objs.filter fun obj =>
              user.has_perm_obj (get_view_permission_for_model K) obj).map Value.model)))
    ∧ resolve user nonNull (.queryset K objs) ≠ .permissionDenied := by
  refine ⟨fun h => ?_, fun h => ?_, ?_⟩
  · simp [GrapheneAuthorizationMiddleware.resolve, h]
  · simp [GrapheneAuthorizationMiddleware.resolve, h]
  · by_cases h : user.has_perm_model (get_view_permission_for_model K) <;>
      simp [GrapheneAuthorizationMiddleware.resolve, h]

/-- C4: a plain list is filtered member by member: a non-entity member is
always kept, an entity member is kept exactly when the user has the
model-level view permission for that member's model or the instance-scoped
permission on it, and the branch never raises. -/
theorem plain_sequence_policy (user : User) (nonNull : Bool) (objs : List Value) :
    resolve user nonNull (.pylist objs) = .ok (.pylist (objs.filter (keeps user)))
    ∧ (∀ obj : Value, (∀ e, obj ≠ .model e) → keeps user obj = true)
    ∧ (∀ e : Entity, keeps user (.model e) =
        (user.has_perm_model (get_view_permission_for_model e.kind)
          || user.has_perm_obj (get_view_permission_for_model e.kind) e))
    ∧ resolve user nonNull (.pylist objs) ≠ .permissionDenied := by
  refine ⟨rfl, ?_, fun e => rfl, by simp [GrapheneAuthorizationMiddleware.resolve]⟩
  intro obj h
  cases obj <;> first | rfl | exact absurd rfl (h _)

/-- The sequence of members an outcome hands back to the engine, for the two
container shapes the middleware can produce; `none` for every other shape. -/
def outputMembers : Outcome → Option (List Value)
  | .ok (.queryset _ objs) => some (objs.map Value.model)
  | .ok (.pylist objs) => some objs
  | _ => none

/-- Concrete model metadata for instantiating the theorems. -/
def demoMeta : ModelMeta := { app_label := "tests", model_name := "project" }

/-- A concrete model instance of `demoMeta`. -/
def demoEntity : Entity := { kind := demoMeta, pk := 1 }

/-- A user granted every model-level permission and no instance-scoped one. -/
def demoUser : User := { has_perm_model := fun _ => true, has_perm_obj := fun _ _ => false }

/-- A user granted no permission at all. -/
def demoDeniedUser : User := { has_perm_model := fun _ => false, has_perm_obj := fun _ _ => false }

/-- C5: a homogeneous queryset and the plain list of the same members in the
same order are filtered identically: a member survives exactly when the user
has the model-level view permission for the shared model or the
instance-scoped permission on that member, order preserved. -/
theorem queryset_plain_list_agree (user : User) (nonNull nonNull' : Bool)
    (K : ModelMeta) (objs : List Entity) (hK : ∀ e ∈ objs, e.kind = K) :
    outputMembers (resolve user nonNull (.queryset K objs)) =
      outputMembers (resolve user nonNull' (.pylist (objs.map Value.model))) := by
  by_cases h : user.has_perm_model (get_view_permission_for_model K)
  · have hkeep : ∀ v ∈ objs.map Value.model, keeps user v = true := by
      intro v hv
      rcases List.mem_map.1 hv with ⟨e, he, rfl⟩
      simp [keeps, has_permission_to_view_model_object, hK e he, h]
    simp [GrapheneAuthorizationMiddleware.resolve, h, outputMembers,
      List.filter_eq_self.2 hkeep]
  · have hsame : objs.filter (fun e => keeps user (Value.model e))
        = objs.filter (fun obj => user.has_perm_obj (get_view_permission_for_model K) obj) := by
      apply List.filter_congr
      intro e he
      simp [keeps, has_permission_to_view_model_object, hK e he, h]
    simp [GrapheneAuthorizationMiddleware.resolve, h, outputMembers,
      List.filter_map, Function.comp_def, hsame]

/-- C5 witness: the two shapes agree on a concrete one-element collection. -/
theorem queryset_plain_list_agree_witness :
    outputMembers (resolve demoDeniedUser true (Value.queryset demoMeta [demoEntity]))
      = outputMembers (resolve demoDeniedUser false
          (Value.pylist ([demoEntity].map Value.model))) :=
  queryset_plain_list_agree demoDeniedUser true false demoMeta [demoEntity]
    (fun e he => by rcases List.mem_singleton.1 he with rfl; rfl)

/-- `String.append` concatenates the character data. -/
theorem string_data_append (a b : String) : (a ++ b).data = a.data ++ b.data := by
  cases a
  cases b
  rfl

/-- Splitting two equal character lists at a separator absent from both left
parts: the parts agree pairwise. -/
theorem dot_split {l₁ r₁ : List Char} :
    ∀ {l₂ r₂ : List Char}, '.' ∉ l₁ → '.' ∉ l₂ →
      l₁ ++ '.' :: r₁ = l₂ ++ '.' :: r₂ → l₁ = l₂ ∧ r₁ = r₂ := by
  induction l₁ with
  | nil =>
      intro l₂ r₂ _ h₂ h
      cases l₂ with
      | nil => simpa using h
      | cons b bs =>
          simp only [List.nil_append, List.cons_append, List.cons.injEq] at h
          obtain ⟨hb, -⟩ := h
          subst hb
          exact absurd (List.mem_cons_self _ _) h₂
  | cons a as ih =>
      intro l₂ r₂ h₁ h₂ h
      cases l₂ with
      | nil =>
          simp only [List.cons_append, List.nil_append, List.cons.injEq] at h
          obtain ⟨ha, -⟩ := h
          subst ha
          exact absurd (List.mem_cons_self _ _) h₁
      | cons b bs =>
          simp only [List.cons_append, List.cons.injEq] at h
          obtain ⟨rfl, h'⟩ := h
          have hr := ih (fun hm => h₁ (List.mem_cons_of_mem _ hm))
            (fun hm => h₂ (List.mem_cons_of_mem _ hm)) h'
          exact ⟨by rw [hr.1], hr.2⟩

/-- The character data of a derived view-permission name, split at the dot. -/
theorem view_permission_data (m : ModelMeta) :
    (get_view_permission_for_model m).data
      = m.app_label.data
          ++ '.' :: ('v' :: 'i' :: 'e' :: 'w' :: '_' :: m.model_name.data) := by
  show (m.app_label ++ "." ++ "view" ++ "_" ++ m.model_name).data = _
  simp only [string_data_append, List.append_assoc]
  rfl

/-- C6: `get_permission_for_model` produces exactly
`"<app_label>.<action>_<model_name>"`, and for the fixed `"view"` action it is
injective on models whose `app_label` contains no dot (as Django app labels
do not): distinct `(app_label, model_name)` pairs give distinct names. -/
theorem permission_name_format_and_injectivity :
    (∀ (model : ModelMeta) (action : String),
        get_permission_for_model model action =
          model.app_label ++ "." ++ action ++ "_" ++ model.model_name)
    ∧ (∀ m₁ m₂ : ModelMeta, '.' ∉ m₁.app_label.data → '.' ∉ m₂.app_label.data →
        get_view_permission_for_model m₁ = get_view_permission_for_model m₂ →
        m₁ = m₂) := by
  refine ⟨fun model action => rfl, fun m₁ m₂ h₁ h₂ h => ?_⟩
  have hd := congrArg String.data h
  rw [view_permission_data, view_permission_data] at hd
  have hsplit := dot_split h₁ h₂ hd
  have happ := hsplit.1
  have hname := hsplit.2
  simp only [List.cons.injEq, true_and] at hname
  obtain ⟨⟨a₁⟩, ⟨n₁⟩⟩ := m₁
  obtain ⟨⟨a₂⟩, ⟨n₂⟩⟩ := m₂
  simp_all

/-- C7: the middleware is idempotent — whatever value one invocation hands
back (a passed-through value, a substituted `None`, or a filtered list), a
second invocation on it, under any nullability, hands it back untouched.
The queryset hypothesis records the Django invariant that a queryset's rows
are instances of its model. -/
theorem resolve_idempotent (user : User) (nonNull nonNull' : Bool) (value value' : Value)
    (hwf : ∀ K objs, value = Value.queryset K objs → ∀ e ∈ objs, e.kind = K)
    (h : resolve user nonNull value = .ok value') :
    resolve user nonNull' value' = .ok value' := by
  have keepsOfFilter : ∀ objs : List Value,
      resolve user nonNull' (.pylist (objs.filter (keeps user)))
        = .ok (.pylist (objs.filter (keeps user))) := by
    intro objs
    have hall : ∀ v ∈ objs.filter (keeps user), keeps user v = true :=
      fun v hv => (List.mem_filter.1 hv).2
    simp [GrapheneAuthorizationMiddleware.resolve, List.filter_eq_self.2 hall]
  cases value with
  | model e =>
      by_cases hg : has_permission_to_view_model_object user e
      · have hv : Value.model e = value' := by
          simpa [GrapheneAuthorizationMiddleware.resolve, hg] using h
        subst hv
        simp [GrapheneAuthorizationMiddleware.resolve, hg]
      · cases nonNull with
        | true => simp [GrapheneAuthorizationMiddleware.resolve, hg] at h
        | false =>
            have hv : Value.pynone = value' := by
              simpa [GrapheneAuthorizationMiddleware.resolve, hg] using h
            subst hv
            rfl
  | queryset K objs =>
      have hK := hwf K objs rfl
      by_cases hm : user.has_perm_model (get_view_permission_for_model K)
      · have hv : Value.queryset K objs = value' := by
          simpa [GrapheneAuthorizationMiddleware.resolve, hm] using h
        subst hv
        simp [GrapheneAuthorizationMiddleware.resolve, hm]
      · have hv : Value.pylist ((objs.filter fun obj =>
            user.has_perm_obj (get_view_permission_for_model K) obj).map Value.model)
              = value' := by
          simpa [GrapheneAuthorizationMiddleware.resolve, hm] using h
        subst hv
        have hall : ∀ v ∈ (objs.filter fun obj =>
            user.has_perm_obj (get_view_permission_for_model K) obj).map Value.model,
            keeps user v = true := by
          intro v hv
          rcases List.mem_map.1 hv with ⟨e, he, rfl⟩
          rcases List.mem_filter.1 he with ⟨heo, hpe⟩
          simp [keeps, has_permission_to_view_model_object, hK e heo, hpe]
        simp [GrapheneAuthorizationMiddleware.resolve, List.filter_eq_self.2 hall]
  | pylist objs =>
      have hv : Value.pylist (objs.filter (keeps user)) = value' := by
        simpa [GrapheneAuthorizationMiddleware.resolve] using h
      subst hv
      exact keepsOfFilter objs
  | pytuple objs =>
      have hv : Value.pylist (objs.filter (keeps user)) = value' := by
        simpa [GrapheneAuthorizationMiddleware.resolve] using h
      subst hv
      exact keepsOfFilter objs
  | pyset objs =>
      have hv : Value.pylist (objs.filter (keeps user)) = value' := by
        simpa [GrapheneAuthorizationMiddleware.resolve] using h
      subst hv
      exact keepsOfFilter objs
  | pynone =>
      have hv : Value.pynone = value' := by
        simpa [GrapheneAuthorizationMiddleware.resolve] using h
      subst hv
      rfl
  | pystr s =>
      have hv : Value.pystr s = value' := by
        simpa [GrapheneAuthorizationMiddleware.resolve] using h
      subst hv
      rfl
  | pyint n =>
      have hv : Value.pyint n = value' := by
        simpa [GrapheneAuthorizationMiddleware.resolve] using h
      subst hv
      rfl
  | pydict entries =>
      have hv : Value.pydict entries = value' := by
        simpa [GrapheneAuthorizationMiddleware.resolve] using h
      subst hv
      rfl
  | iterator objs =>
      have hv : Value.iterator objs = value' := by
        simpa [GrapheneAuthorizationMiddleware.resolve] using h
      subst hv
      rfl

/-- C7 witness: re-running the middleware on a list it already filtered
leaves it untouched. -/
theorem resolve_idempotent_witness :
    resolve demoUser true (Value.pylist [Value.pystr "a", Value.model demoEntity])
      = .ok (Value.pylist [Value.pystr "a", Value.model demoEntity]) :=
  resolve_idempotent demoUser false true
    (Value.pylist [Value.pystr "a", Value.model demoEntity])
    (Value.pylist [Value.pystr "a", Value.model demoEntity])
    (fun _ _ hq => Value.noConfusion hq) rfl

/-- C8: filtering a queryset is a single pass over the already-scheduled
iteration — no pull when the sweeping model permission short-circuits,
exactly one pull per element otherwise, never more — and the middleware hands
the user/permission state back unchanged while computing the same outcome as
the uninstrumented code. -/
theorem queryset_filter_single_pass (user : User) (nonNull : Bool) (K : ModelMeta)
    (objs : List Entity) :
    (resolveInstr user nonNull (.queryset K objs)).2.1 = user
    ∧ (resolveInstr user nonNull (.queryset K objs)).2.2.2 =
        (if user.has_perm_model (get_view_permission_for_model K) then 0 else objs.length)
    ∧ (resolveInstr user nonNull (.queryset K objs)).1 =
        resolve user nonNull (.queryset K objs) := by
  refine ⟨?_, ?_, resolveInstr_outcome user nonNull _⟩ <;>
    by_cases hm : user.has_perm_model (get_view_permission_for_model K) <;>
    simp [GrapheneAuthorizationMiddleware.resolveInstr, filterPull_spec, hm]

/-- C9: with the sweeping model permission a queryset is returned as the very
queryset object (still lazy); in every filtering case — a queryset without
that permission, or any list/tuple/set input — the outcome is a materialized
plain list, even when nothing is dropped and even when the input container
was a tuple or a set. -/
theorem output_container_shape (user : User) (nonNull : Bool) :
    (∀ (K : ModelMeta) (objs : List Entity),
        user.has_perm_model (get_view_permission_for_model K) = true →
        resolve user nonNull (.queryset K objs) = .ok (.queryset K objs))
    ∧ (∀ (K : ModelMeta) (objs : List Entity),
        user.has_perm_model (get_view_permission_for_model K) = false →
        ∃ kept, resolve user nonNull (.queryset K objs) = .ok (.pylist kept))
    ∧ (∀ objs : List Value, ∃ kept,
        resolve user nonNull (.pylist objs) = .ok (.pylist kept))
    ∧ (∀ objs : List Value, ∃ kept,
        resolve user nonNull (.pytuple objs) = .ok (.pylist kept))
    ∧ (∀ objs : List Value, ∃ kept,
        resolve user nonNull (.pyset objs) = .ok (.pylist kept))
    ∧ (∀ objs : List Value, (∀ obj ∈ objs, keeps user obj = true) →
        resolve user nonNull (.pytuple objs) = .ok (.pylist objs)) := by
  refine ⟨fun K objs h => by simp [GrapheneAuthorizationMiddleware.resolve, h],
    fun K objs h =>
      ⟨(objs.filter fun obj => user.has_perm_obj (get_view_permission_for_model K) obj).map
          Value.model,
        by simp [GrapheneAuthorizationMiddleware.resolve, h]⟩,
    fun objs => ⟨_, rfl⟩, fun objs => ⟨_, rfl⟩, fun objs => ⟨_, rfl⟩,
    fun objs hall => by
      simp [GrapheneAuthorizationMiddleware.resolve, List.filter_eq_self.2 hall]⟩

/-- C10: strings, dicts, numbers, `None` and arbitrary iterators (even ones
yielding entities) pass through entirely unchanged with zero oracle lookups;
the three checked shapes — a single entity, a queryset, a plain container —
are the only ones that ever consult the oracle, and the first two always do. -/
theorem untouched_shapes_zero_lookups (user : User) (nonNull : Bool) :
    (∀ s, resolveInstr user nonNull (.pystr s) = (.ok (.pystr s), user, 0, 0))
    ∧ (∀ entries, resolveInstr user nonNull (.pydict entries)
        = (.ok (.pydict entries), user, 0, 0))
    ∧ (∀ n, resolveInstr user nonNull (.pyint n) = (.ok (.pyint n), user, 0, 0))
    ∧ resolveInstr user nonNull .pynone = (.ok .pynone, user, 0, 0)
    ∧ (∀ objs, resolveInstr user nonNull (.iterator objs)
        = (.ok (.iterator objs), user, 0, 0))
    ∧ (∀ e, 1 ≤ (resolveInstr user nonNull (.model e)).2.2.1)
    ∧ (∀ (K : ModelMeta) (objs : List Entity),
        1 ≤ (resolveInstr user nonNull (.queryset K objs)).2.2.1) := by
  refine ⟨fun s => rfl, fun entries => rfl, fun n => rfl, rfl, fun objs => rfl,
    fun e => ?_, fun K objs => ?_⟩
  · by_cases hg : has_permission_to_view_model_object user e <;> cases nonNull <;>
      simp [GrapheneAuthorizationMiddleware.resolveInstr,
        GrapheneAuthorizationMiddleware.viewObjectCalls, hg] <;>
      split <;> omega
  · by_cases hm : user.has_perm_model (get_view_permission_for_model K) <;>
      simp [GrapheneAuthorizationMiddleware.resolveInstr, filterPull_spec, hm]

end GraphenePerms
